import Mathlib

/-!
Verification of the content-addressed ingestion core of the photo backup
server: the SHA-256 hasher (streaming and whole-buffer, mirroring
StorageService.compute_hash and StorageService.compute_hash_from_bytes),
filename sanitization and storage-path allocation
(StorageService._sanitize_filename, StorageService.get_storage_path),
the byte-persistence step (StorageService.save_file), usage accounting
(StorageService.get_storage_info), the SQLite-backed deduplication index
(DedupService), and the upload pipeline (routes/files.py).

Bytes are modelled as natural numbers below 256, byte strings as lists of
naturals, 32-bit machine words as naturals reduced modulo 2 to the 32.
The hashlib SHA-256 object is modelled concretely: an internal 8-word
state, an unprocessed-bytes buffer, and a running total length, with
update absorbing every complete 64-byte block eagerly, exactly as an
incremental SHA-256 implementation does.
-/

/-- Truncation to a 32-bit machine word. -/
def w32 (n : Nat) : Nat := n % 4294967296

/-- Right rotation of a 32-bit word by r bits. -/
def rotr (r n : Nat) : Nat := w32 ((n >>> r) ||| (n <<< (32 - r)))

/-- SHA-256 big sigma-0. -/
def bsig0 (x : Nat) : Nat := (rotr 2 x) ^^^ (rotr 13 x) ^^^ (rotr 22 x)

/-- SHA-256 big sigma-1. -/
def bsig1 (x : Nat) : Nat := (rotr 6 x) ^^^ (rotr 11 x) ^^^ (rotr 25 x)

/-- SHA-256 small sigma-0. -/
def ssig0 (x : Nat) : Nat := (rotr 7 x) ^^^ (rotr 18 x) ^^^ (x >>> 3)

/-- SHA-256 small sigma-1. -/
def ssig1 (x : Nat) : Nat := (rotr 17 x) ^^^ (rotr 19 x) ^^^ (x >>> 10)

/-- SHA-256 choice function; the 32-bit complement is xor with the all-ones mask. -/
def chFn (e f g : Nat) : Nat := (e &&& f) ^^^ ((e ^^^ 4294967295) &&& g)

/-- SHA-256 majority function. -/
def majFn (a b c : Nat) : Nat := (a &&& b) ^^^ (a &&& c) ^^^ (b &&& c)

/-- The 64 SHA-256 round constants, written in decimal. -/
def K256 : List Nat :=
  [1116352408, 1899447441, 3049323471, 3921009573, 961987163,
   1508970993, 2453635748, 2870763221, 3624381080, 310598401,
   607225278, 1426881987, 1925078388, 2162078206, 2614888103,
   3248222580, 3835390401, 4022224774, 264347078, 604807628,
   770255983, 1249150122, 1555081692, 1996064986, 2554220882,
   2821834349, 2952996808, 3210313671, 3336571891, 3584528711,
   113926993, 338241895, 666307205, 773529912, 1294757372,
   1396182291, 1695183700, 1986661051, 2177026350, 2456956037,
   2730485921, 2820302411, 3259730800, 3345764771, 3516065817,
   3600352804, 4094571909, 275423344, 430227734, 506948616,
   659060556, 883997877, 958139571, 1322822218, 1537002063,
   1747873779, 1955562222, 2024104815, 2227730452, 2361852424,
   2428436474, 2756734187, 3204031479, 3329325298]

/-- The SHA-256 initial hash state, eight 32-bit words in decimal. -/
def H256 : List Nat :=
  [1779033703, 3144134277, 1013904242, 2773480762,
   1359893119, 2600822924, 528734635, 1541459225]

/-- Group bytes into big-endian 32-bit words, four bytes per word. -/
def bytesToWords : List Nat → List Nat
  | b0 :: b1 :: b2 :: b3 :: rest =>
      (((b0 * 256 + b1) * 256 + b2) * 256 + b3) :: bytesToWords rest
  | _ => []

/-- One message-schedule extension step; acc holds the schedule so far in
reverse order, so index 1 is w[i-2], index 6 is w[i-7], index 14 is
w[i-15] and index 15 is w[i-16]. -/
def schedStep (acc : List Nat) : Nat :=
  w32 (ssig1 (acc.getD 1 0) + acc.getD 6 0 + ssig0 (acc.getD 14 0) + acc.getD 15 0)

/-- Extend the reversed message schedule n times. -/
def extendSched : Nat → List Nat → List Nat
  | 0, acc => acc
  | n + 1, acc => extendSched n (schedStep acc :: acc)

/-- The 64-entry SHA-256 message schedule of a block given as 16 words. -/
def schedule (ws : List Nat) : List Nat := (extendSched 48 ws.reverse).reverse

/-- One SHA-256 round on the working variables [a,b,c,d,e,f,g,h]. -/
def roundStep (st : List Nat) (kw : Nat × Nat) : List Nat :=
  match st with
  | [a, b, c, d, e, f, g, h] =>
      let t1 := w32 (h + bsig1 e + chFn e f g + kw.1 + kw.2)
      let t2 := w32 (bsig0 a + majFn a b c)
      [w32 (t1 + t2), a, b, c, w32 (d + t1), e, f, g]
  | _ => st

/-- The SHA-256 compression function: absorb one 64-byte block into the
eight-word state. -/
def compress (h : List Nat) (block : List Nat) : List Nat :=
  let ws := schedule (bytesToWords block)
  let st := (K256.zip ws).foldl roundStep h
  List.zipWith (fun x y => w32 (x + y)) h st

/-- Fuel-driven block absorption: consume every complete 64-byte block at
the front of data, returning the new state and the remainder (shorter
than 64 bytes) once the fuel covers the data. -/
def absorbAux : Nat → List Nat → List Nat → List Nat × List Nat
  | 0, h, data => (h, data)
  | fuel + 1, h, data =>
      if 64 ≤ data.length then
        absorbAux fuel (compress h (data.take 64)) (data.drop 64)
      else (h, data)

/-- Absorb every complete 64-byte block at the front of data; the data
length is always enough fuel since each step consumes 64 bytes. -/
def absorbBlocks (h : List Nat) (data : List Nat) : List Nat × List Nat :=
  absorbAux data.length h data

/-- The eight bytes of the big-endian 64-bit length field. -/
def lenBE8 (n : Nat) : List Nat :=
  [(n >>> 56) % 256, (n >>> 48) % 256, (n >>> 40) % 256, (n >>> 32) % 256,
   (n >>> 24) % 256, (n >>> 16) % 256, (n >>> 8) % 256, n % 256]

/-- SHA-256 padding for a message of the given byte length: the 0x80
byte, zeros up to 56 mod 64, then the bit length as eight big-endian
bytes, making the padded length a multiple of 64. -/
def padBytes (len : Nat) : List Nat :=
  128 :: List.replicate ((64 - ((len + 9) % 64)) % 64) 0 ++ lenBE8 (8 * len)

/-- Serialize one 32-bit word as four big-endian bytes. -/
def wordBE4 (w : Nat) : List Nat :=
  [(w >>> 24) % 256, (w >>> 16) % 256, (w >>> 8) % 256, w % 256]

/-- Serialize the eight-word state as 32 digest bytes. -/
def stateToBytes (h : List Nat) : List Nat := (h.map wordBE4).flatten

/-- Whole-buffer SHA-256: pad the message and absorb all blocks. -/
def sha256 (msg : List Nat) : List Nat :=
  stateToBytes (absorbBlocks H256 (msg ++ padBytes msg.length)).1

/-- The sixteen lowercase hexadecimal digits. -/
def hexDigits : List Char := "0123456789abcdef".data

/-- Two lowercase hex characters of one byte. -/
def byteHex (b : Nat) : List Char :=
  [hexDigits.getD (b / 16 % 16) 'x', hexDigits.getD (b % 16) 'x']

/-- Lowercase hexadecimal rendering of a byte list. -/
def toHexLower (bs : List Nat) : String := String.mk (bs.map byteHex).flatten

/-- StorageService.compute_hash_from_bytes: hashlib.sha256(content).hexdigest(). -/
def compute_hash_from_bytes (content : List Nat) : String := toHexLower (sha256 content)

/-- The incremental hashlib.sha256() object: eight-word internal state,
unprocessed-byte buffer (always shorter than 64 bytes), and the total
number of bytes absorbed so far. -/
structure HashCtx where
  hstate : List Nat
  buf : List Nat
  total : Nat
deriving DecidableEq

/-- hashlib.sha256() freshly constructed. -/
def ctxInit : HashCtx := ⟨H256, [], 0⟩

/-- The update method: append the chunk to the pending buffer and absorb
every complete 64-byte block eagerly. -/
def hashUpdate (c : HashCtx) (chunk : List Nat) : HashCtx :=
  let r := absorbBlocks c.hstate (c.buf ++ chunk)
  ⟨r.1, r.2, c.total + chunk.length⟩

/-- The hexdigest method: pad out the buffered remainder with the total
length, absorb, and render the state in lowercase hex. -/
def hexdigestOf (c : HashCtx) : String :=
  toHexLower (stateToBytes (absorbBlocks c.hstate (c.buf ++ padBytes c.total)).1)

/-- StorageService.compute_hash: stream the file chunk by chunk through
one update call each, then take the hexdigest. -/
def compute_hash (chunks : List (List Nat)) : String :=
  hexdigestOf (chunks.foldl hashUpdate ctxInit)

/-- The context reached by absorbing the bytes m from a fresh object. -/
def ctxOf (m : List Nat) : HashCtx :=
  ⟨(absorbBlocks H256 m).1, (absorbBlocks H256 m).2, m.length⟩

theorem absorbAux_congr : ∀ (fuel fuel' : Nat) (h data : List Nat),
    data.length ≤ 64 * fuel + 63 → data.length ≤ 64 * fuel' + 63 →
    absorbAux fuel h data = absorbAux fuel' h data := by
  intro fuel
  induction fuel with
  | zero =>
      intro fuel' h data h1 h2
      cases fuel' with
      | zero => rfl
      | succ k =>
          simp only [absorbAux]
          rw [if_neg (by omega)]
  | succ n ih =>
      intro fuel' h data h1 h2
      cases fuel' with
      | zero =>
          simp only [absorbAux]
          rw [if_neg (by omega)]
      | succ k =>
          simp only [absorbAux]
          by_cases h64 : 64 ≤ data.length
          · rw [if_pos h64, if_pos h64]
            apply ih
            · simp only [List.length_drop]; omega
            · simp only [List.length_drop]; omega
          · rw [if_neg h64, if_neg h64]

theorem absorb_step (h data : List Nat) (h64 : 64 ≤ data.length) :
    absorbBlocks h data = absorbBlocks (compress h (data.take 64)) (data.drop 64) := by
  unfold absorbBlocks
  have hd : data.length = (data.length - 1) + 1 := by omega
  rw [hd]
  simp only [absorbAux]
  rw [if_pos h64]
  apply absorbAux_congr
  all_goals simp only [List.length_drop]
  all_goals omega

theorem absorb_small (h data : List Nat) (h64 : ¬ 64 ≤ data.length) :
    absorbBlocks h data = (h, data) := by
  unfold absorbBlocks
  rw [absorbAux_congr data.length 0 h data (by omega) (by omega)]
  rfl

/-- Absorbing m and then continuing with c reaches the same point as
absorbing the concatenation m ++ c in one go. -/
theorem absorb_append : ∀ (n : Nat) (m : List Nat), m.length ≤ n → ∀ (h c : List Nat),
    absorbBlocks (absorbBlocks h m).1 ((absorbBlocks h m).2 ++ c) = absorbBlocks h (m ++ c) := by
  intro n
  induction n with
  | zero =>
      intro m hm h c
      have hme : m = [] := List.length_eq_zero.mp (Nat.le_zero.mp hm)
      subst hme
      rw [absorb_small h [] (by simp)]
  | succ n ih =>
      intro m hm h c
      by_cases h64 : 64 ≤ m.length
      · have e2 : absorbBlocks h (m ++ c) =
            absorbBlocks (compress h ((m ++ c).take 64)) ((m ++ c).drop 64) := by
          apply absorb_step
          simp only [List.length_append]; omega
        rw [absorb_step h m h64, e2]
        rw [List.take_append_of_le_length h64, List.drop_append_of_le_length h64]
        apply ih
        simp only [List.length_drop]; omega
      · rw [absorb_small h m h64]

/-- One update call on the context of m yields the context of m ++ chunk. -/
theorem hashUpdate_ctxOf (m chunk : List Nat) :
    hashUpdate (ctxOf m) chunk = ctxOf (m ++ chunk) := by
  unfold hashUpdate ctxOf
  have h := absorb_append m.length m le_rfl H256 chunk
  simp only [h, List.length_append]

/-- Folding update over a chunk list from the context of m reaches the
context of m followed by the joined chunks. -/
theorem foldl_hashUpdate_ctxOf : ∀ (chunks : List (List Nat)) (m : List Nat),
    chunks.foldl hashUpdate (ctxOf m) = ctxOf (m ++ chunks.flatten) := by
  intro chunks
  induction chunks with
  | nil => intro m; simp
  | cons c cs ih =>
      intro m
      simp only [List.foldl_cons, List.flatten_cons]
      rw [hashUpdate_ctxOf, ih, List.append_assoc]

theorem ctxInit_eq : ctxInit = ctxOf [] := by
  unfold ctxInit ctxOf
  rw [absorb_small H256 [] (by simp)]
  rfl

/-- Streaming hashing of any chunking equals whole-buffer hashing of the
joined bytes. -/
theorem compute_hash_eq_join (chunks : List (List Nat)) :
    compute_hash chunks = compute_hash_from_bytes chunks.flatten := by
  unfold compute_hash compute_hash_from_bytes
  rw [ctxInit_eq, foldl_hashUpdate_ctxOf]
  unfold hexdigestOf ctxOf sha256
  rw [List.nil_append]
  rw [absorb_append chunks.flatten.length chunks.flatten le_rfl H256 (padBytes chunks.flatten.length)]

theorem roundStep_length (st : List Nat) (p : Nat × Nat) :
    (roundStep st p).length = st.length := by
  unfold roundStep
  split
  · simp_all
  · rfl

theorem foldl_roundStep_length : ∀ (l : List (Nat × Nat)) (st : List Nat),
    (l.foldl roundStep st).length = st.length := by
  intro l
  induction l with
  | nil => intro st; rfl
  | cons p t ih => intro st; rw [List.foldl_cons, ih, roundStep_length]

theorem compress_length (h block : List Nat) (hh : h.length = 8) :
    (compress h block).length = 8 := by
  unfold compress
  rw [List.length_zipWith, foldl_roundStep_length, hh]
  simp

theorem absorbAux_fst_length : ∀ (fuel : Nat) (h data : List Nat), h.length = 8 →
    (absorbAux fuel h data).1.length = 8 := by
  intro fuel
  induction fuel with
  | zero => intro h data hh; exact hh
  | succ n ih =>
      intro h data hh
      simp only [absorbAux]
      by_cases h64 : 64 ≤ data.length
      · rw [if_pos h64]; exact ih _ _ (compress_length h _ hh)
      · rw [if_neg h64]; exact hh

theorem stateToBytes_length : ∀ (h : List Nat), (stateToBytes h).length = 4 * h.length := by
  intro h
  induction h with
  | nil => rfl
  | cons a t ih =>
      simp only [stateToBytes, List.map_cons, List.flatten_cons] at ih ⊢
      rw [List.length_append, ih]
      simp [wordBE4]
      omega

/-- The SHA-256 digest of any message is 32 bytes, i.e. 256 bits. -/
theorem sha256_length (msg : List Nat) : (sha256 msg).length = 32 := by
  unfold sha256 absorbBlocks
  rw [stateToBytes_length, absorbAux_fst_length _ _ _ (by rfl)]

theorem hexDigits_getD_mem : ∀ i : Nat, i < 16 → hexDigits.getD i 'x' ∈ hexDigits := by
  decide

theorem toHexLower_chars : ∀ (bs : List Nat) (c : Char),
    c ∈ (toHexLower bs).data → c ∈ hexDigits := by
  intro bs c hc
  simp only [toHexLower] at hc
  rw [List.mem_flatten] at hc
  obtain ⟨l, hl, hcl⟩ := hc
  rw [List.mem_map] at hl
  obtain ⟨b, _, hb⟩ := hl
  subst hb
  simp only [byteHex, List.mem_cons, List.mem_singleton] at hcl
  rcases hcl with h1 | h1 | h1
  · subst h1; exact hexDigits_getD_mem _ (Nat.mod_lt _ (by omega))
  · subst h1; exact hexDigits_getD_mem _ (Nat.mod_lt _ (by omega))
  · cases h1

theorem toHexLower_length : ∀ (bs : List Nat), (toHexLower bs).length = 2 * bs.length := by
  intro bs
  induction bs with
  | nil => rfl
  | cons b t ih =>
      simp only [toHexLower, String.length, List.map_cons, List.flatten_cons,
        List.length_append] at ih ⊢
      rw [ih]
      simp [byteHex]
      omega

/-- C4. For every byte sequence and every partition of it into chunks,
hashing the chunks in streaming fashion (compute_hash) and hashing the
joined buffer in one call (compute_hash_from_bytes) yield the identical
digest, and that digest is the lowercase hexadecimal encoding, 64 hex
characters, of the 32-byte (256-bit) SHA-256 value of the bytes. -/
theorem upload_hashing_streaming_agrees_with_buffer (chunks : List (List Nat)) :
    compute_hash chunks = compute_hash_from_bytes chunks.flatten ∧
    compute_hash_from_bytes chunks.flatten = toHexLower (sha256 chunks.flatten) ∧
    (sha256 chunks.flatten).length = 32 ∧
    (compute_hash_from_bytes chunks.flatten).length = 64 ∧
    (compute_hash_from_bytes chunks.flatten).data.all (fun c => hexDigits.contains c) = true := by
  refine ⟨compute_hash_eq_join chunks, rfl, sha256_length _, ?_, ?_⟩
  · unfold compute_hash_from_bytes
    rw [toHexLower_length, sha256_length]
  · rw [List.all_eq_true]
    intro c hc
    have hm := toHexLower_chars _ _ hc
    simpa using hm

/-- Sanity anchor: the model reproduces the official SHA-256 test vector
for the empty message. -/
theorem sha256_vector_empty :
    compute_hash_from_bytes [] =
      "e3b0c44298fc1c149afbf4c8996fb92427ae41e4649b934ca495991b7852b855" := by
  decide

/-- Sanity anchor: the model reproduces the official SHA-256 test vector
for the three bytes of the string abc. -/
theorem sha256_vector_abc :
    compute_hash_from_bytes [97, 98, 99] =
      "ba7816bf8f01cfea414140de5dae2223b00361a396177a9cb410ff61f20015ad" := by
  decide

/-- The character class kept by the regex in
StorageService._sanitize_filename: word characters (modelled over ASCII),
dash, underscore, dot, space. -/
def isSafeChar (c : Char) : Bool :=
  c.isAlphanum || c == '-' || c == '_' || c == '.' || c == ' '

/-- The characters removed at both ends by the strip call, dot and space. -/
def pyStrip (c : Char) : Bool := c == '.' || c == ' '

/-- One character under re.sub: a safe character is kept, any other
character is replaced by an underscore. -/
def replChar (c : Char) : Char := if isSafeChar c then c else '_'

/-- The substitution pass followed by stripping dots and spaces from both
ends, as _sanitize_filename does before the empty-result fallback. -/
def sanitizeCore (l : List Char) : List Char :=
  ((l.map replChar).dropWhile pyStrip).rdropWhile pyStrip

/-- StorageService._sanitize_filename. -/
def sanitize_filename (s : String) : String :=
  let r := sanitizeCore s.data
  if r.isEmpty then "unnamed" else String.mk r

/-- The sanitizer as the claim words it: characters outside the safe set
are stripped out entirely rather than replaced; kept for comparison with
the implementation. -/
def sanitizeSpecStrip (s : String) : String :=
  let r := ((s.data.filter isSafeChar).dropWhile pyStrip).rdropWhile pyStrip
  if r.isEmpty then "unnamed" else String.mk r

theorem sanitizeCore_mem_safe (l : List Char) :
    ∀ c ∈ sanitizeCore l, isSafeChar c = true := by
  intro c hc
  unfold sanitizeCore at hc
  have h1 : c ∈ (l.map replChar).dropWhile pyStrip :=
    ( List.rdropWhile_prefix pyStrip ((l.map replChar).dropWhile pyStrip)).subset hc
  have h2 : c ∈ l.map replChar := (List.dropWhile_suffix pyStrip).subset h1
  rw [List.mem_map] at h2
  obtain ⟨a, _, ha⟩ := h2
  subst ha
  unfold replChar
  by_cases h : isSafeChar a = true
  · rw [if_pos h]; exact h
  · rw [if_neg h]; decide

theorem sanitizeCore_headD (l : List Char) :
    pyStrip ((sanitizeCore l).headD 'x') = false := by
  cases hr : sanitizeCore l with
  | nil => rfl
  | cons a t =>
      have hpre : a :: t <+: (l.map replChar).dropWhile pyStrip := by
        rw [← hr]
        exact List.rdropWhile_prefix pyStrip ((l.map replChar).dropWhile pyStrip)
      obtain ⟨rest, hrest⟩ := hpre
      have hA : (l.map replChar).dropWhile pyStrip ≠ [] := by
        rw [← hrest]; simp
      have hnot := List.head_dropWhile_not pyStrip (l.map replChar) hA
      have h1 : ((l.map replChar).dropWhile pyStrip).head? = some a := by
        rw [← hrest]; rfl
      rw [List.head?_eq_head hA] at h1
      have hhead := Option.some.inj h1
      rw [hhead] at hnot
      simpa using hnot

theorem sanitizeCore_getLastD (l : List Char) :
    pyStrip ((sanitizeCore l).getLastD 'x') = false := by
  cases hr : sanitizeCore l with
  | nil => rfl
  | cons a t =>
      have hne : ((l.map replChar).dropWhile pyStrip).rdropWhile pyStrip ≠ [] := by
        have h0 : sanitizeCore l ≠ [] := by rw [hr]; simp
        exact h0
      have hnot := List.rdropWhile_last_not
        (l := (l.map replChar).dropWhile pyStrip) (p := pyStrip) hne
      have hcast : ((l.map replChar).dropWhile pyStrip).rdropWhile pyStrip = a :: t := hr
      have h2 : (a :: t).getLast? =
          some ((((l.map replChar).dropWhile pyStrip).rdropWhile pyStrip).getLast hne) := by
        rw [← List.getLast?_eq_getLast_of_ne_nil hne, hcast]
      rw [List.getLast?_eq_getLast_of_ne_nil (List.cons_ne_nil a t)] at h2
      have h3 := Option.some.inj h2
      rw [List.getLastD_eq_getLast?,
        List.getLast?_eq_getLast_of_ne_nil (List.cons_ne_nil a t), Option.getD_some, h3]
      simpa using hnot

/-- C5 amended. Sanitization replaces every character outside the safe
set (alphanumerics, dash, underscore, dot, space) with an underscore,
trims leading and trailing dots and spaces, and falls back to the fixed
placeholder name when the result is empty; the returned name is never
empty, consists only of safe characters, contains no path separator, and
neither starts nor ends with a dot or space. -/
theorem sanitize_filename_conservative (s : String) :
    sanitize_filename s ≠ "" ∧
    (sanitize_filename s).data.all isSafeChar = true ∧
    '/' ∉ (sanitize_filename s).data ∧
    '\\' ∉ (sanitize_filename s).data ∧
    pyStrip ((sanitize_filename s).data.headD 'x') = false ∧
    pyStrip ((sanitize_filename s).data.getLastD 'x') = false := by
  unfold sanitize_filename
  by_cases hr : (sanitizeCore s.data).isEmpty
  · rw [if_pos hr]
    refine ⟨by decide, by decide, by decide, by decide, by decide, by decide⟩
  · rw [if_neg hr]
    have hdata : (String.mk (sanitizeCore s.data)).data = sanitizeCore s.data := rfl
    refine ⟨?_, ?_, ?_, ?_, ?_, ?_⟩
    · intro h
      have : (String.mk (sanitizeCore s.data)).data = ("" : String).data := by rw [h]
      rw [hdata] at this
      rw [List.isEmpty_iff] at hr
      exact hr this
    · rw [hdata, List.all_eq_true]
      intro c hc
      exact sanitizeCore_mem_safe s.data c hc
    · rw [hdata]
      intro h
      have := sanitizeCore_mem_safe s.data '/' h
      simp [isSafeChar] at this
    · rw [hdata]
      intro h
      have := sanitizeCore_mem_safe s.data '\\' h
      simp [isSafeChar] at this
    · rw [hdata]; exact sanitizeCore_headD s.data
    · rw [hdata]; exact sanitizeCore_getLastD s.data

/-- C5 counterexample. The claim says characters outside the safe set
are stripped; the code replaces them with underscores instead: on the
input a/b the code yields a_b while stripping would yield ab. -/
theorem sanitize_filename_not_stripping :
    sanitize_filename "a/b" = "a_b" ∧
    sanitizeSpecStrip "a/b" = "ab" ∧
    sanitize_filename "a/b" ≠ sanitizeSpecStrip "a/b" := by
  decide

/-- The startswith test of Python strings, over the character lists of
the two strings so that it evaluates by kernel reduction. -/
def strStartsWith (s p : String) : Bool := p.data.isPrefixOf s.data

/-- SOURCE_FOLDERS from storage.py: source tags mapped to a dedicated
folder, with camera mapped to None so it falls through to MIME
classification. -/
def sourceFolders : List (String × Option String) :=
  [("camera", none), ("whatsapp", some "WhatsApp"),
   ("wechat", some "WeChat"), ("downloads", some "Downloads")]

/-- Dictionary lookup in SOURCE_FOLDERS. -/
def lookupSource (s : String) : Option (Option String) :=
  (sourceFolders.find? (fun p => p.1 == s)).map (fun p => p.2)

/-- StorageService._get_media_folder: a truthy source with a dedicated
folder wins; otherwise classify by MIME type, image to Photos, video to
Videos, anything else to Other. The Python truthiness test makes an
empty-string source fall through. -/
def get_media_folder (mime : String) (source : Option String) : String :=
  let viaSource : Option String :=
    match source with
    | some s =>
        if s == "" then none
        else
          match lookupSource s with
          | some (some f) => some f
          | _ => none
    | none => none
  match viaSource with
  | some f => f
  | none =>
      if strStartsWith mime "image/" then "Photos"
      else if strStartsWith mime "video/" then "Videos"
      else "Other"

/-- The two-digit month field of the path, f-string 02d formatting. -/
def month2 (m : Nat) : String := if m < 10 then "0" ++ toString m else toString m

/-- Index of the last dot in a list of characters, if any. -/
def rfindDot (l : List Char) : Option Nat :=
  match l.reverse.findIdx? (fun c => c == '.') with
  | some j => some (l.length - 1 - j)
  | none => none

/-- CPython PurePath stem and suffix of a file name: split at the last
dot when it is neither the first nor the last character, else the suffix
is empty. -/
def stemSuffix (name : String) : String × String :=
  match rfindDot name.data with
  | some i =>
      if 0 < i ∧ i < name.data.length - 1 then
        (String.mk (name.data.take i), String.mk (name.data.drop i))
      else (name, "")
  | none => (name, "")

/-- The candidate sequence of the collision loop: the original relative
path first, then the stem with _1, _2, ... spliced before the suffix,
all in the same directory. -/
def pathCand (dir stem suffix rel0 : String) : Nat → String
  | 0 => rel0
  | k + 1 => dir ++ "/" ++ stem ++ "_" ++ toString (k + 1) ++ suffix

/-- The while loop of get_storage_path: while the candidate exists on
disk, move to the next numbered candidate. The fuel only bounds the
modelled iteration count; get_storage_path passes enough for any free
candidate that exists within the occupied-path budget. -/
def resolveLoop (fs : List String) (dir stem suffix : String) : Nat → String → Nat → String
  | 0, rel, _ => rel
  | fuel + 1, rel, counter =>
      if rel ∈ fs then
        resolveLoop fs dir stem suffix fuel
          (dir ++ "/" ++ stem ++ "_" ++ toString counter ++ suffix) (counter + 1)
      else rel

/-- StorageService.get_storage_path over a modelled set of existing
on-disk relative paths fs: folder from source and MIME, year and
two-digit month from the capture date or the current date, sanitized
filename, then numbered-suffix collision resolution. -/
def get_storage_path (fs : List String) (filename mime : String)
    (dateTaken : Option (Nat × Nat)) (now : Nat × Nat) (source : Option String) : String :=
  let d := dateTaken.getD now
  let folder := get_media_folder mime source
  let safe := sanitize_filename filename
  let dir := folder ++ "/" ++ toString d.1 ++ "/" ++ month2 d.2
  let ss := stemSuffix safe
  resolveLoop fs dir ss.1 ss.2 (fs.length + 1) (dir ++ "/" ++ safe) 1

theorem resolveLoop_spec (fs : List String) (dir stem suffix rel0 : String) :
    ∀ (fuel k : Nat),
    (∃ j, k ≤ j ∧ j < k + fuel ∧ pathCand dir stem suffix rel0 j ∉ fs) →
    ∃ m, k ≤ m ∧
      resolveLoop fs dir stem suffix fuel (pathCand dir stem suffix rel0 k) (k + 1) =
        pathCand dir stem suffix rel0 m ∧
      pathCand dir stem suffix rel0 m ∉ fs ∧
      ∀ i, k ≤ i → i < m → pathCand dir stem suffix rel0 i ∈ fs := by
  intro fuel
  induction fuel with
  | zero =>
      intro k hex
      obtain ⟨j, hj1, hj2, _⟩ := hex
      omega
  | succ n ih =>
      intro k hex
      by_cases hk : pathCand dir stem suffix rel0 k ∈ fs
      · obtain ⟨j, hj1, hj2, hj3⟩ := hex
        have hjk : j ≠ k := by
          intro he
          exact hj3 (he ▸ hk)
        obtain ⟨m, hm1, hm2, hm3, hm4⟩ := ih (k + 1) ⟨j, by omega, by omega, hj3⟩
        refine ⟨m, by omega, ?_, hm3, ?_⟩
        · simp only [resolveLoop]
          rw [if_pos hk]
          exact hm2
        · intro i hi1 hi2
          rcases Nat.eq_or_lt_of_le hi1 with he | hlt
          · exact he ▸ hk
          · exact hm4 i hlt hi2
      · refine ⟨k, le_rfl, ?_, hk, ?_⟩
        · simp only [resolveLoop]
          rw [if_neg hk]
        · intro i hi1 hi2
          omega

/-- C6. Path allocation resolves collisions by appending _1, _2, ...
before the file extension, checking existence of every candidate, and
returns the first candidate not on disk; the allocator only reads
existence, so the returned path is different from every occupied path,
existing files included. The hypothesis supplies a free candidate within
the fuel budget of the modelled loop. -/
theorem get_storage_path_first_unused (fs : List String) (filename mime : String)
    (dateTaken : Option (Nat × Nat)) (now : Nat × Nat) (source : Option String)
    (dir stem suffix rel0 : String)
    (hdir : dir = get_media_folder mime source ++ "/" ++ toString (dateTaken.getD now).1
      ++ "/" ++ month2 (dateTaken.getD now).2)
    (hss : (stem, suffix) = stemSuffix (sanitize_filename filename))
    (hrel0 : rel0 = dir ++ "/" ++ sanitize_filename filename)
    (hfree : ∃ j, j ≤ fs.length ∧ pathCand dir stem suffix rel0 j ∉ fs) :
    ∃ m, get_storage_path fs filename mime dateTaken now source =
        pathCand dir stem suffix rel0 m ∧
      pathCand dir stem suffix rel0 m ∉ fs ∧
      ∀ i, i < m → pathCand dir stem suffix rel0 i ∈ fs := by
  obtain ⟨j, hj1, hj2⟩ := hfree
  obtain ⟨m, _, hm2, hm3, hm4⟩ :=
    resolveLoop_spec fs dir stem suffix rel0 (fs.length + 1) 0 ⟨j, Nat.zero_le j, by omega, hj2⟩
  refine ⟨m, ?_, hm3, fun i hi => hm4 i (Nat.zero_le i) hi⟩
  have h1 : stem = (stemSuffix (sanitize_filename filename)).1 := by rw [← hss]
  have h2 : suffix = (stemSuffix (sanitize_filename filename)).2 := by rw [← hss]
  subst hdir hrel0 h1 h2
  exact hm2

/-- C6 witness: with Photos/2024/03/photo.jpg already on disk, a second
allocation for photo.jpg in the same folder, year and month yields
Photos/2024/03/photo_1.jpg, a path different from the existing file. -/
theorem get_storage_path_first_unused_witness :
    get_storage_path ["Photos/2024/03/photo.jpg"] "photo.jpg" "image/jpeg"
      (some (2024, 3)) (2025, 1) none = "Photos/2024/03/photo_1.jpg" ∧
    (∃ m, get_storage_path ["Photos/2024/03/photo.jpg"] "photo.jpg" "image/jpeg"
        (some (2024, 3)) (2025, 1) none =
        pathCand "Photos/2024/03" "photo" ".jpg" "Photos/2024/03/photo.jpg" m ∧
      pathCand "Photos/2024/03" "photo" ".jpg" "Photos/2024/03/photo.jpg" m ∉
        ["Photos/2024/03/photo.jpg"] ∧
      ∀ i, i < m → pathCand "Photos/2024/03" "photo" ".jpg" "Photos/2024/03/photo.jpg" i ∈
        ["Photos/2024/03/photo.jpg"]) :=
  ⟨by decide,
   get_storage_path_first_unused ["Photos/2024/03/photo.jpg"] "photo.jpg" "image/jpeg"
     (some (2024, 3)) (2025, 1) none "Photos/2024/03" "photo" ".jpg"
     "Photos/2024/03/photo.jpg" (by decide) (by decide) (by decide)
     ⟨1, by decide, by decide⟩⟩

/-- One row of the backed_up_files table of DedupService, sha256_hash
first; backed_up_at is filled in by SQLite and not modelled. -/
structure BackupRecord where
  digest : String
  storage_path : String
  original_path : Option String := none
  original_filename : Option String := none
  file_size : Option Nat := none
  mime_type : Option String := none
  source_device : Option String := none
deriving DecidableEq

/-- DedupService.exists: SELECT 1 WHERE sha256_hash matches. -/
def dedup_exists (idx : List BackupRecord) (h : String) : Bool :=
  idx.any (fun r => r.digest == h)

/-- DedupService.record: the INSERT under the UNIQUE constraint on
sha256_hash. A clashing digest raises sqlite3.IntegrityError, which the
method catches and turns into False with the table unchanged, so the
model is a total function: True means created, False means duplicate,
and no exception escapes. -/
def record (idx : List BackupRecord) (r : BackupRecord) : List BackupRecord × Bool :=
  if dedup_exists idx r.digest then (idx, false) else (idx ++ [r], true)

/-- The table after a sequence of record calls. -/
def applyRecords (idx : List BackupRecord) (ops : List BackupRecord) : List BackupRecord :=
  ops.foldl (fun i r => (record i r).1) idx

/-- The table and the list of outcomes after a sequence of record calls. -/
def runRecords : List BackupRecord → List BackupRecord → List BackupRecord × List Bool
  | idx, [] => (idx, [])
  | idx, r :: rest =>
      let step := record idx r
      let rest2 := runRecords step.1 rest
      (rest2.1, step.2 :: rest2.2)

/-- Number of rows carrying digest D. -/
def countD (idx : List BackupRecord) (D : String) : Nat :=
  (idx.filter (fun r => r.digest == D)).length

theorem dedup_exists_record (idx : List BackupRecord) (r : BackupRecord) (D : String) :
    dedup_exists (record idx r).1 D = (dedup_exists idx D || (r.digest == D)) := by
  unfold record
  by_cases h : dedup_exists idx r.digest = true
  · rw [if_pos h]
    by_cases hD : (r.digest == D) = true
    · have hched : r.digest = D := eq_of_beq hD
      subst hched
      simp [h]
    · have hDf : (r.digest == D) = false := by
        rw [Bool.eq_false_iff]; exact hD
      simp [hDf]
  · rw [if_neg h]
    unfold dedup_exists
    rw [List.any_append]
    simp
theorem dedup_exists_applyRecords (ops : List BackupRecord) :
    ∀ (idx : List BackupRecord) (D : String),
    dedup_exists (applyRecords idx ops) D =
      (dedup_exists idx D || ops.any (fun r => r.digest == D)) := by
  induction ops with
  | nil => intro idx D; simp [applyRecords]
  | cons r t ih =>
      intro idx D
      have hstep : applyRecords idx (r :: t) = applyRecords (record idx r).1 t := rfl
      rw [hstep, ih, dedup_exists_record]
      simp [Bool.or_assoc]

theorem countD_record (idx : List BackupRecord) (r : BackupRecord) (D : String) :
    countD (record idx r).1 D =
      countD idx D +
        (if dedup_exists idx r.digest then 0 else (if (r.digest == D) = true then 1 else 0)) := by
  unfold record
  by_cases h : dedup_exists idx r.digest = true
  · rw [if_pos h, if_pos h]
    simp
  · rw [if_neg h, if_neg h]
    unfold countD
    by_cases hD : (r.digest == D) = true
    · rw [if_pos hD]
      simp [List.filter_append, List.filter, hD]
    · have hDf : (r.digest == D) = false := by
        rw [Bool.eq_false_iff]; exact hD
      rw [if_neg hD]
      simp [List.filter_append, List.filter, hDf]

theorem countD_applyRecords (ops : List BackupRecord) :
    ∀ (idx : List BackupRecord) (D : String),
    countD (applyRecords idx ops) D =
      countD idx D +
        (if dedup_exists idx D = false ∧ ops.any (fun r => r.digest == D) = true
          then 1 else 0) := by
  induction ops with
  | nil =>
      intro idx D
      simp [applyRecords]
  | cons r t ih =>
      intro idx D
      have hstep : applyRecords idx (r :: t) = applyRecords (record idx r).1 t := rfl
      rw [hstep, ih, countD_record, dedup_exists_record]
      by_cases hD : (r.digest == D) = true
      · have heq : r.digest = D := eq_of_beq hD
        by_cases hex : dedup_exists idx D = true
        · have hex2 : dedup_exists idx r.digest = true := heq ▸ hex
          rw [if_pos hex2]
          simp [hex, hD]
        · have hexf : dedup_exists idx D = false := by
            rw [Bool.eq_false_iff]; exact hex
          have hex2 : dedup_exists idx r.digest = false := heq ▸ hexf
          rw [hex2]
          simp [hexf, hD, heq]
      · have hDf : (r.digest == D) = false := by rw [Bool.eq_false_iff]; exact hD
        rw [hDf]
        by_cases hex : dedup_exists idx r.digest = true
        · rw [if_pos hex]
          simp [List.any_cons, hDf]
        · rw [if_neg hex, if_neg (by simp [hDf])]
          simp [List.any_cons, hDf]

theorem filterD_frozen (ops : List BackupRecord) :
    ∀ (idx : List BackupRecord) (D : String), dedup_exists idx D = true →
    (applyRecords idx ops).filter (fun r => r.digest == D) =
      idx.filter (fun r => r.digest == D) := by
  induction ops with
  | nil => intro idx D _; rfl
  | cons r t ih =>
      intro idx D hex
      have hstep : applyRecords idx (r :: t) = applyRecords (record idx r).1 t := rfl
      rw [hstep]
      unfold record
      by_cases h : dedup_exists idx r.digest = true
      · rw [if_pos h]
        exact ih idx D hex
      · rw [if_neg h]
        have hDf : (r.digest == D) = false := by
          rw [Bool.eq_false_iff]
          intro hD
          exact h ((eq_of_beq hD) ▸ hex)
        have hfr : (idx ++ [r]).filter (fun x => x.digest == D) =
            idx.filter (fun x => x.digest == D) := by
          rw [List.filter_append]
          simp [List.filter, hDf]
        have hex2 : dedup_exists (idx ++ [r]) D = true := by
          unfold dedup_exists
          rw [List.any_append]
          unfold dedup_exists at hex
          rw [hex]
          rfl
        rw [ih (idx ++ [r]) D hex2, hfr]

theorem filterD_applyRecords (ops : List BackupRecord) :
    ∀ (idx : List BackupRecord) (D : String), dedup_exists idx D = false →
    (applyRecords idx ops).filter (fun r => r.digest == D) =
      (ops.find? (fun r => r.digest == D)).toList := by
  induction ops with
  | nil =>
      intro idx D hex
      have : idx.filter (fun r => r.digest == D) = [] := by
        rw [List.filter_eq_nil_iff]
        intro a ha hDa
        have : dedup_exists idx D = true := by
          unfold dedup_exists
          rw [List.any_eq_true]
          exact ⟨a, ha, hDa⟩
        rw [this] at hex
        cases hex
      exact this
  | cons r t ih =>
      intro idx D hex
      have hstep : applyRecords idx (r :: t) = applyRecords (record idx r).1 t := rfl
      have hfilnil : idx.filter (fun x => x.digest == D) = [] := by
        rw [List.filter_eq_nil_iff]
        intro a ha hDa
        have h2 : dedup_exists idx D = true := by
          unfold dedup_exists
          rw [List.any_eq_true]
          exact ⟨a, ha, hDa⟩
        rw [h2] at hex
        cases hex
      rw [hstep]
      by_cases hD : (r.digest == D) = true
      · have heq : r.digest = D := eq_of_beq hD
        have hnew : dedup_exists idx r.digest = false := heq ▸ hex
        have hrec : (record idx r).1 = idx ++ [r] := by
          unfold record
          rw [if_neg (by rw [hnew]; exact Bool.false_ne_true)]
      -- after the winning insert the digest exists, so later inserts leave the rows frozen
        have hex2 : dedup_exists (idx ++ [r]) D = true := by
          unfold dedup_exists
          rw [List.any_append]
          simp [hD]
        rw [hrec, filterD_frozen t (idx ++ [r]) D hex2, List.filter_append, hfilnil]
        simp [List.filter, hD, List.find?, hD]
      · have hDf : (r.digest == D) = false := by
          rw [Bool.eq_false_iff]; exact hD
        have hfind : (r :: t).find? (fun x => x.digest == D) = t.find? (fun x => x.digest == D) := by
          rw [List.find?_cons_of_neg _ (by rw [hDf]; exact Bool.false_ne_true)]
        rw [hfind]
        unfold record
        by_cases h : dedup_exists idx r.digest = true
        · rw [if_pos h]
          exact ih idx D hex
        · rw [if_neg h]
          have hex2 : dedup_exists (idx ++ [r]) D = false := by
            unfold dedup_exists
            rw [List.any_append]
            unfold dedup_exists at hex
            rw [hex]
            simp [hDf]
          exact ih (idx ++ [r]) D hex2

theorem runRecords_fst : ∀ (ops idx : List BackupRecord),
    (runRecords idx ops).1 = applyRecords idx ops := by
  intro ops
  induction ops with
  | nil => intro idx; rfl
  | cons r t ih => intro idx; simp only [runRecords]; exact ih (record idx r).1

theorem runRecords_snd_length : ∀ (ops idx : List BackupRecord),
    (runRecords idx ops).2.length = ops.length := by
  intro ops
  induction ops with
  | nil => intro idx; rfl
  | cons r t ih =>
      intro idx
      simp only [runRecords, List.length_cons]
      rw [ih]

theorem runRecords_snd_append : ∀ (pre post idx : List BackupRecord),
    (runRecords idx (pre ++ post)).2 =
      (runRecords idx pre).2 ++ (runRecords (applyRecords idx pre) post).2 := by
  intro pre
  induction pre with
  | nil => intro post idx; rfl
  | cons r t ih =>
      intro post idx
      simp only [List.cons_append, runRecords]
      show (record idx r).2 :: (runRecords (record idx r).1 (t ++ post)).2 =
        (record idx r).2 ::
          ((runRecords (record idx r).1 t).2 ++ (runRecords (applyRecords idx (r :: t)) post).2)
      rw [ih]
      rfl

/-- C1. Starting from an empty table, after any sequence of record calls
containing at least one record with digest D: exactly one row with
digest D exists; that row is the first record with digest D that was
inserted, so later attempts never overwrite it; and the outcome of each
insert with digest D is created (true) exactly when no earlier insert
carried digest D, duplicate (false) for every later one. The model is a
total function because the code catches sqlite3.IntegrityError, so no
exception is raised. -/
theorem dedup_insert_unique (ops : List BackupRecord) (D : String)
    (hD : ops.any (fun r => r.digest == D) = true) :
    (∃ r, ops.find? (fun r => r.digest == D) = some r ∧
      (applyRecords [] ops).filter (fun r => r.digest == D) = [r]) ∧
    countD (applyRecords [] ops) D = 1 ∧
    (∀ pre x post, ops = pre ++ x :: post → (x.digest == D) = true →
      (runRecords [] ops).2[pre.length]? =
        some (!(pre.any (fun r => r.digest == D)))) := by
  refine ⟨?_, ?_, ?_⟩
  · have hfind : (ops.find? (fun r => r.digest == D)).isSome := by
      rw [List.find?_isSome]
      rw [List.any_eq_true] at hD
      exact hD
    rw [Option.isSome_iff_exists] at hfind
    obtain ⟨r, hr⟩ := hfind
    refine ⟨r, hr, ?_⟩
    rw [filterD_applyRecords ops [] D rfl, hr]
    rfl
  · rw [countD_applyRecords ops [] D]
    simp [countD, dedup_exists, hD]
  · intro pre x post hsplit hxD
    have hxd : x.digest = D := eq_of_beq hxD
    subst hxd
    subst hsplit
    rw [runRecords_snd_append pre (x :: post) []]
    have hlen : (runRecords [] pre).2.length = pre.length := runRecords_snd_length pre []
    rw [List.getElem?_append_right (by rw [hlen])]
    rw [hlen, Nat.sub_self]
    show ((record (applyRecords [] pre) x).2 ::
      (runRecords (record (applyRecords [] pre) x).1 post).2)[0]? = _
    rw [List.getElem?_cons_zero]
    congr 1
    unfold record
    have h2 : dedup_exists (applyRecords [] pre) x.digest =
        pre.any (fun r => r.digest == x.digest) := by
      rw [dedup_exists_applyRecords pre [] x.digest]
      rfl
    rw [h2]
    by_cases hany : pre.any (fun r => r.digest == x.digest) = true
    · rw [if_pos hany, hany]
      rfl
    · have hf : pre.any (fun r => r.digest == x.digest) = false := by
        rw [Bool.eq_false_iff]; exact hany
      rw [if_neg hany, hf]
      rfl

/-- A concrete insert sequence: two records with the same digest d1 in
different paths, then one with digest d2. -/
def opsC1 : List BackupRecord :=
  [⟨"d1", "Photos/2024/03/a.jpg", none, none, some 3, some "image/jpeg", none⟩,
   ⟨"d1", "Photos/2024/03/b.jpg", none, none, some 3, some "image/jpeg", none⟩,
   ⟨"d2", "Photos/2024/03/c.jpg", none, none, some 4, some "image/jpeg", none⟩]

/-- C1 witness at a concrete insert sequence with a repeated digest. -/
theorem dedup_insert_unique_witness :
    opsC1.any (fun r => r.digest == "d1") = true ∧
    ((∃ r, opsC1.find? (fun r => r.digest == "d1") = some r ∧
      (applyRecords [] opsC1).filter (fun r => r.digest == "d1") = [r]) ∧
    countD (applyRecords [] opsC1) "d1" = 1 ∧
    (∀ pre x post, opsC1 = pre ++ x :: post → (x.digest == "d1") = true →
      (runRecords [] opsC1).2[pre.length]? =
        some (!(pre.any (fun r => r.digest == "d1"))))) :=
  ⟨by decide, dedup_insert_unique opsC1 "d1" (by decide)⟩

/-- DedupService.get_existing_hashes: the empty input short-circuits to
the empty set; otherwise the SELECT returns the table rows whose digest
is among the inputs and the Python set comprehension deduplicates them. -/
def get_existing_hashes (hashes : List String) (idx : List BackupRecord) : List String :=
  if hashes.isEmpty then []
  else ((idx.map (fun r => r.digest)).filter (fun d => hashes.contains d)).dedup

/-- The check endpoint of routes/files.py: existing from the index,
missing as the input list without the existing ones, in input order. -/
def check_files (hashes : List String) (idx : List BackupRecord) : List String × List String :=
  let ex := get_existing_hashes hashes idx
  (ex, hashes.filter (fun h => !(ex.contains h)))

theorem mem_get_existing_hashes (hashes : List String) (idx : List BackupRecord) (d : String) :
    d ∈ get_existing_hashes hashes idx ↔ (d ∈ hashes ∧ dedup_exists idx d = true) := by
  unfold get_existing_hashes
  by_cases he : hashes.isEmpty
  · rw [if_pos he]
    have hnil : hashes = [] := List.isEmpty_iff.mp he
    subst hnil
    simp
  · rw [if_neg he]
    rw [List.mem_dedup, List.mem_filter, List.mem_map]
    constructor
    · rintro ⟨⟨r, hr, hrd⟩, hcont⟩
      refine ⟨by simpa using hcont, ?_⟩
      unfold dedup_exists
      rw [List.any_eq_true]
      exact ⟨r, hr, by simp [hrd]⟩
    · rintro ⟨hdh, hex⟩
      unfold dedup_exists at hex
      rw [List.any_eq_true] at hex
      obtain ⟨r, hr, hrd⟩ := hex
      exact ⟨⟨r, hr, eq_of_beq hrd⟩, by simpa using hdh⟩

/-- C7. The existing component of check_files is exactly the set of
input digests present in the index; the missing component is the input
list in its original order with the index-present digests removed; the
empty input yields the empty result without error. -/
theorem check_files_spec (hashes : List String) (idx : List BackupRecord) :
    (∀ d, d ∈ (check_files hashes idx).1 ↔ (d ∈ hashes ∧ dedup_exists idx d = true)) ∧
    (check_files hashes idx).2 = hashes.filter (fun h => !(dedup_exists idx h)) ∧
    check_files [] idx = ([], []) := by
  refine ⟨fun d => mem_get_existing_hashes hashes idx d, ?_, rfl⟩
  show hashes.filter (fun h => !((get_existing_hashes hashes idx).contains h)) =
    hashes.filter (fun h => !(dedup_exists idx h))
  apply List.filter_congr
  intro h hmem
  have hc : (get_existing_hashes hashes idx).contains h = dedup_exists idx h := by
    by_cases hex : dedup_exists idx h = true
    · rw [hex]
      have hm : h ∈ get_existing_hashes hashes idx :=
        (mem_get_existing_hashes hashes idx h).mpr ⟨hmem, hex⟩
      simpa using hm
    · have hexf : dedup_exists idx h = false := Bool.eq_false_iff.mpr hex
      rw [hexf, Bool.eq_false_iff]
      intro hcont
      have hm : h ∈ get_existing_hashes hashes idx := by simpa using hcont
      exact hex ((mem_get_existing_hashes hashes idx h).mp hm).2
  rw [hc]

/-- One entry yielded by rglob under the storage root: the components of
its parent directories relative to the root, its own final name, whether
it is a regular file, and its size in bytes. The code tests only the
entry's own name, never its ancestors. -/
structure DiskEntry where
  parents : List String
  name : String
  isFile : Bool
  size : Nat
deriving DecidableEq

/-- The condition of the counting loop of get_storage_info:
file_path.is_file() and not file_path.name.startswith(dot). -/
def countedEntry (e : DiskEntry) : Bool := e.isFile && !(strStartsWith e.name ".")

/-- StorageService.get_storage_info over the rglob listing: fold the
counting loop, returning (total file count, total bytes). -/
def get_storage_info (entries : List DiskEntry) : Nat × Nat :=
  entries.foldl
    (fun acc e => if countedEntry e then (acc.1 + 1, acc.2 + e.size) else acc) (0, 0)

theorem get_storage_info_foldl (entries : List DiskEntry) :
    ∀ (a b : Nat),
    entries.foldl
      (fun acc e => if countedEntry e then (acc.1 + 1, acc.2 + e.size) else acc) (a, b) =
      (a + (entries.filter countedEntry).length,
       b + ((entries.filter countedEntry).map (fun e => e.size)).sum) := by
  induction entries with
  | nil => intro a b; simp
  | cons e t ih =>
      intro a b
      rw [List.foldl_cons]
      by_cases hce : countedEntry e = true
      · rw [if_pos hce]
        rw [ih (a + 1) (b + e.size)]
        simp [List.filter, hce]
        constructor
        · omega
        · omega
      · have hcf : countedEntry e = false := Bool.eq_false_iff.mpr hce
        rw [if_neg hce]
        rw [ih a b]
        simp [List.filter, hcf]

/-- C9. Usage accounting counts exactly the regular-file entries whose
own name is not dot-prefixed: the file count is the number of such
entries and the byte total the sum of their sizes; removing every
dot-prefixed entry, or every non-file entry, leaves both totals
unchanged, so hidden entries such as the index file, API key and server
identity never contribute. -/
theorem get_storage_info_counts (entries : List DiskEntry) :
    get_storage_info entries =
      ((entries.filter countedEntry).length,
       ((entries.filter countedEntry).map (fun e => e.size)).sum) ∧
    get_storage_info entries =
      get_storage_info (entries.filter (fun e => !(strStartsWith e.name "."))) ∧
    get_storage_info entries = get_storage_info (entries.filter (fun e => e.isFile)) := by
  have hbase : ∀ l : List DiskEntry, get_storage_info l =
      ((l.filter countedEntry).length,
       ((l.filter countedEntry).map (fun e => e.size)).sum) := by
    intro l
    unfold get_storage_info
    rw [get_storage_info_foldl l 0 0]
    simp
  refine ⟨hbase entries, ?_, ?_⟩
  · rw [hbase entries, hbase (entries.filter (fun e => !(strStartsWith e.name ".")))]
    rw [List.filter_filter]
    have hsame : ∀ e ∈ entries,
        (countedEntry e && !(strStartsWith e.name ".")) = countedEntry e := by
      intro e _
      by_cases h : strStartsWith e.name "." = true
      · simp [countedEntry, h]
      · have hf : strStartsWith e.name "." = false := Bool.eq_false_iff.mpr h
        simp [countedEntry, hf]
    rw [List.filter_congr hsame]
  · rw [hbase entries, hbase (entries.filter (fun e => e.isFile))]
    rw [List.filter_filter]
    have hsame : ∀ e ∈ entries, (countedEntry e && e.isFile) = countedEntry e := by
      intro e _
      by_cases h : e.isFile = true
      · simp [countedEntry, h]
      · have hf : e.isFile = false := Bool.eq_false_iff.mpr h
        simp [countedEntry, hf]
    rw [List.filter_congr hsame]

/-- The filesystem as an association list from relative path to byte
content; the head entry for a path is its current content. -/
abbrev Fs := List (String × List Nat)

/-- Content visible at a path, none when the path does not exist. -/
def lookupFile (fs : Fs) (p : String) : Option (List Nat) :=
  (fs.find? (fun e => e.1 == p)).map (fun e => e.2)

/-- Write the given content at a path, replacing what was there. -/
def setFile (fs : Fs) (p : String) (c : List Nat) : Fs :=
  (p, c) :: fs.filter (fun e => !(e.1 == p))

/-- StorageService.save_file final effect: the content stored at the
destination path. -/
def save_file (fs : Fs) (dest : String) (content : List Nat) : Fs :=
  setFile fs dest content

/-- The visible filesystem states of one save_file call in order: before
the call; after aiofiles.open(dest_path, wb) has created or truncated
the file at its final destination path; after the single write call.
The code opens the destination path itself, with no temporary name and
no rename. -/
def save_file_trace (fs : Fs) (dest : String) (content : List Nat) : List Fs :=
  [fs, setFile fs dest [], setFile fs dest content]

theorem lookupFile_setFile (fs : Fs) (p : String) (c : List Nat) :
    lookupFile (setFile fs p c) p = some c := by
  unfold lookupFile setFile
  rw [List.find?_cons_of_pos _ (by simp)]
  rfl

/-- C8 counterexample. Writing the single byte 1 to path f on an empty
filesystem exposes an intermediate state in which f exists with empty
content: not every state of the trace shows the file either absent or
fully written, so a partially written file is visible under its final
path. -/
theorem save_file_partial_state_visible :
    ¬ (∀ s ∈ save_file_trace [] "f" [1],
        lookupFile s "f" = none ∨ lookupFile s "f" = some [1]) := by
  decide

/-- C8 amended. save_file writes directly at the final destination path
with no temporary name and no rename: for nonempty content on a path
not currently holding empty content, the state right after the open is
visible at index 1 of the trace and shows the file present at its final
path with empty (truncated, partial) content, different from the full
content; only the last state holds the full content. -/
theorem save_file_writes_in_place (fs : Fs) (dest : String) (content : List Nat)
    (hc : content ≠ []) :
    (save_file_trace fs dest content)[1]? = some (setFile fs dest []) ∧
    lookupFile (setFile fs dest []) dest = some [] ∧
    lookupFile (setFile fs dest []) dest ≠ none ∧
    lookupFile (setFile fs dest []) dest ≠ some content ∧
    (save_file_trace fs dest content)[2]? = some (save_file fs dest content) ∧
    lookupFile (save_file fs dest content) dest = some content := by
  refine ⟨rfl, lookupFile_setFile fs dest [], ?_, ?_, rfl, lookupFile_setFile fs dest content⟩
  · rw [lookupFile_setFile fs dest []]
    intro h
    cases h
  · rw [lookupFile_setFile fs dest []]
    intro h
    exact hc (Option.some.inj h).symm

/-- C8 amended witness at a concrete one-byte write. -/
theorem save_file_writes_in_place_witness :
    ([1] : List Nat) ≠ [] ∧
    ((save_file_trace [] "f" [1])[1]? = some (setFile [] "f" []) ∧
    lookupFile (setFile [] "f" []) "f" = some [] ∧
    lookupFile (setFile [] "f" []) "f" ≠ none ∧
    lookupFile (setFile [] "f" []) "f" ≠ some [1] ∧
    (save_file_trace [] "f" [1])[2]? = some (save_file [] "f" [1]) ∧
    lookupFile (save_file [] "f" [1]) "f" = some [1]) :=
  ⟨by decide, save_file_writes_in_place [] "f" [1] (by decide)⟩

/-- The UploadResponse model of models/file_info.py. -/
structure UploadResponse where
  status : String
  path : Option String := none
  hash : Option String := none
  message : Option String := none
deriving DecidableEq

/-- What the upload endpoint hands back to the transport: a structured
response, or an HTTPException with a status code and detail string. -/
inductive UploadOutcome where
  | responded (r : UploadResponse)
  | httpError (code : Nat) (detail : String)
deriving DecidableEq

/-- Python truthiness of an optional string: None and the empty string
are falsy. -/
def truthy : Option String → Option String
  | some s => if s == "" then none else some s
  | none => none

/-- mime_type or file.content_type or application/octet-stream, with
Python or semantics. -/
def actual_mime (mime ct : Option String) : String :=
  match truthy mime with
  | some m => m
  | none =>
      match truthy ct with
      | some m => m
      | none => "application/octet-stream"

/-- The upload endpoint of routes/files.py. The index is read twice: at
the duplicate pre-check and inside record; a concurrent winner may
commit between the two, so the model takes the index at each point
(idxCheck, idxRecord); the sequential, race-free run is
idxCheck = idxRecord. Steps in code order: pre-check, MIME resolution,
path allocation, content read and hash verification, disk write, index
record with its return value discarded, success response. -/
def upload_file (fs : Fs) (idxCheck idxRecord : List BackupRecord)
    (filename : Option String) (file_hash : String) (original_path : Option String)
    (dateTaken : Option (Nat × Nat)) (now : Nat × Nat)
    (mime_type contentType device_name source : Option String)
    (content : List Nat) : UploadOutcome × Fs × List BackupRecord :=
  if dedup_exists idxCheck file_hash then
    (UploadOutcome.responded ⟨"exists", none, none, some "File already backed up"⟩,
     fs, idxRecord)
  else
    let actualMime := actual_mime mime_type contentType
    let rel := get_storage_path (fs.map Prod.fst) ((truthy filename).getD "unknown")
      actualMime dateTaken now source
    let computed := compute_hash_from_bytes content
    if computed ≠ file_hash then
      (UploadOutcome.httpError 400
        ("Hash mismatch: expected " ++ file_hash ++ ", got " ++ computed), fs, idxRecord)
    else
      let fs2 := save_file fs rel content
      let step := record idxRecord
        ⟨file_hash, rel, original_path, filename, some content.length,
         some actualMime, device_name⟩
      (UploadOutcome.responded ⟨"success", some rel, some file_hash, none⟩, fs2, step.1)

/-- C3. When the claimed digest is not yet recorded and the computed
SHA-256 of the received bytes differs from it, the upload terminates in
the hash-mismatch error: an HTTP 400 is raised, the filesystem is
returned unchanged (no file written under the storage root), and the
index is returned unchanged. -/
theorem upload_hash_mismatch_rejected (fs : Fs) (idx : List BackupRecord)
    (filename : Option String) (file_hash : String) (original_path : Option String)
    (dateTaken : Option (Nat × Nat)) (now : Nat × Nat)
    (mime_type contentType device_name source : Option String) (content : List Nat)
    (h1 : dedup_exists idx file_hash = false)
    (h2 : compute_hash_from_bytes content ≠ file_hash) :
    upload_file fs idx idx filename file_hash original_path dateTaken now mime_type
        contentType device_name source content =
      (UploadOutcome.httpError 400 ("Hash mismatch: expected " ++ file_hash ++ ", got " ++
        compute_hash_from_bytes content), fs, idx) := by
  unfold upload_file
  rw [if_neg (by rw [h1]; exact Bool.false_ne_true)]
  simp [h2]

/-- C3 witness: an empty body with an unrelated claimed digest is
rejected with a 400 and no state change. -/
theorem upload_hash_mismatch_rejected_witness :
    dedup_exists [] "deadbeef" = false ∧
    compute_hash_from_bytes [] ≠ "deadbeef" ∧
    upload_file [] [] [] none "deadbeef" none none (2025, 1) none none none none [] =
      (UploadOutcome.httpError 400 ("Hash mismatch: expected " ++ "deadbeef" ++ ", got " ++
        compute_hash_from_bytes []), [], []) :=
  ⟨rfl, by decide,
   upload_hash_mismatch_rejected [] [] none "deadbeef" none none (2025, 1) none none
     none none [] rfl (by decide)⟩

/-- C10. When the claimed digest is already present in the index, the
endpoint returns the exists response before the request body is ever
read, hashed, or compared: the entire observable result, response,
filesystem and index, is identical for any two uploaded contents with
that claimed digest, including contents whose true digest differs from
the claim. -/
theorem upload_existing_digest_ignores_content (fs : Fs) (idx : List BackupRecord)
    (filename : Option String) (file_hash : String) (original_path : Option String)
    (dateTaken : Option (Nat × Nat)) (now : Nat × Nat)
    (mime_type contentType device_name source : Option String)
    (content1 content2 : List Nat)
    (h : dedup_exists idx file_hash = true) :
    upload_file fs idx idx filename file_hash original_path dateTaken now mime_type
        contentType device_name source content1 =
      upload_file fs idx idx filename file_hash original_path dateTaken now mime_type
        contentType device_name source content2 ∧
    upload_file fs idx idx filename file_hash original_path dateTaken now mime_type
        contentType device_name source content1 =
      (UploadOutcome.responded ⟨"exists", none, none, some "File already backed up"⟩,
       fs, idx) := by
  constructor
  · unfold upload_file
    rw [if_pos h, if_pos h]
  · unfold upload_file
    rw [if_pos h]

/-- C10 witness: two different bodies, one of the wrong digest entirely,
produce identical results once the digest is recorded. -/
theorem upload_existing_digest_ignores_content_witness :
    dedup_exists [⟨"h1", "p1", none, none, some 0, none, none⟩] "h1" = true ∧
    (upload_file [] [⟨"h1", "p1", none, none, some 0, none, none⟩]
        [⟨"h1", "p1", none, none, some 0, none, none⟩] none "h1" none none (2025, 1)
        none none none none [] =
      upload_file [] [⟨"h1", "p1", none, none, some 0, none, none⟩]
        [⟨"h1", "p1", none, none, some 0, none, none⟩] none "h1" none none (2025, 1)
        none none none none [1, 2, 3] ∧
    upload_file [] [⟨"h1", "p1", none, none, some 0, none, none⟩]
        [⟨"h1", "p1", none, none, some 0, none, none⟩] none "h1" none none (2025, 1)
        none none none none [] =
      (UploadOutcome.responded ⟨"exists", none, none, some "File already backed up"⟩,
       [], [⟨"h1", "p1", none, none, some 0, none, none⟩])) :=
  ⟨by decide,
   upload_existing_digest_ignores_content [] [⟨"h1", "p1", none, none, some 0, none, none⟩]
     none "h1" none none (2025, 1) none none none none [] [1, 2, 3] (by decide)⟩

/-- C2 amended. When the pre-check misses but a concurrent winner has
committed the digest before the record step, the insert reports
duplicate, the return value is discarded, and the caller receives the
success (Accepted) response with the newly allocated path, not the
exists (AlreadyExists) response; the bytes written at that path stay in
place as an orphan and the index keeps only the winner's record. -/
theorem upload_race_duplicate_accepted (fs : Fs) (idxCheck idxRecord : List BackupRecord)
    (filename : Option String) (file_hash : String) (original_path : Option String)
    (dateTaken : Option (Nat × Nat)) (now : Nat × Nat)
    (mime_type contentType device_name source : Option String) (content : List Nat)
    (rel : String)
    (hrel : rel = get_storage_path (fs.map Prod.fst) ((truthy filename).getD "unknown")
      (actual_mime mime_type contentType) dateTaken now source)
    (h1 : dedup_exists idxCheck file_hash = false)
    (h2 : compute_hash_from_bytes content = file_hash)
    (h3 : dedup_exists idxRecord file_hash = true) :
    upload_file fs idxCheck idxRecord filename file_hash original_path dateTaken now
        mime_type contentType device_name source content =
      (UploadOutcome.responded ⟨"success", some rel, some file_hash, none⟩,
       save_file fs rel content, idxRecord) ∧
    lookupFile (save_file fs rel content) rel = some content ∧
    (record idxRecord ⟨file_hash, rel, original_path, filename, some content.length,
      some (actual_mime mime_type contentType), device_name⟩).2 = false := by
  subst hrel
  refine ⟨?_, lookupFile_setFile fs _ content, ?_⟩
  · unfold upload_file
    rw [if_neg (by rw [h1]; exact Bool.false_ne_true)]
    simp [h2, record, h3]
  · unfold record
    rw [if_pos h3]

/-- The record committed by the concurrent winner, holding the digest of
the empty byte string at a different path. -/
def raceWinner : BackupRecord :=
  ⟨compute_hash_from_bytes [], "Elsewhere/winner.bin", none, none, some 0, none, none⟩

/-- C2 counterexample. In the race run below, the index insert reports
the duplicate outcome, yet the response handed to the caller is the
success (Accepted) response, not the exists (AlreadyExists) response;
the index still holds only the winner, and the uploaded bytes sit
orphaned at the newly allocated path. -/
theorem upload_duplicate_outcome_still_success :
    (record [raceWinner] ⟨compute_hash_from_bytes [], "Photos/2024/03/unknown", none, none,
      some 0, some "image/jpeg", none⟩).2 = false ∧
    (upload_file [] [] [raceWinner] none (compute_hash_from_bytes []) none (some (2024, 3))
        (2025, 1) (some "image/jpeg") none none none []).1 =
      UploadOutcome.responded ⟨"success", some "Photos/2024/03/unknown",
        some (compute_hash_from_bytes []), none⟩ ∧
    (UploadOutcome.responded ⟨"success", some "Photos/2024/03/unknown",
        some (compute_hash_from_bytes []), none⟩ : UploadOutcome) ≠
      UploadOutcome.responded ⟨"exists", none, none, some "File already backed up"⟩ ∧
    (upload_file [] [] [raceWinner] none (compute_hash_from_bytes []) none (some (2024, 3))
        (2025, 1) (some "image/jpeg") none none none []).2.2 = [raceWinner] ∧
    lookupFile (upload_file [] [] [raceWinner] none (compute_hash_from_bytes []) none
        (some (2024, 3)) (2025, 1) (some "image/jpeg") none none none []).2.1
      "Photos/2024/03/unknown" = some [] ∧
    raceWinner.storage_path ≠ "Photos/2024/03/unknown" := by
  decide

/-- C2 amended witness at the concrete race run. -/
theorem upload_race_duplicate_accepted_witness :
    dedup_exists [] (compute_hash_from_bytes []) = false ∧
    compute_hash_from_bytes [] = compute_hash_from_bytes [] ∧
    dedup_exists [raceWinner] (compute_hash_from_bytes []) = true ∧
    (upload_file [] [] [raceWinner] none (compute_hash_from_bytes []) none (some (2024, 3))
        (2025, 1) (some "image/jpeg") none none none [] =
      (UploadOutcome.responded ⟨"success", some "Photos/2024/03/unknown",
        some (compute_hash_from_bytes []), none⟩,
       save_file [] "Photos/2024/03/unknown" [], [raceWinner]) ∧
    lookupFile (save_file [] "Photos/2024/03/unknown" []) "Photos/2024/03/unknown" =
      some [] ∧
    (record [raceWinner] ⟨compute_hash_from_bytes [], "Photos/2024/03/unknown", none, none,
      some (0 : Nat), some (actual_mime (some "image/jpeg") none), none⟩).2 = false) :=
  ⟨rfl, rfl, by decide,
   upload_race_duplicate_accepted [] [] [raceWinner] none (compute_hash_from_bytes [])
     none (some (2024, 3)) (2025, 1) (some "image/jpeg") none none none []
     "Photos/2024/03/unknown" (by decide) rfl rfl (by decide)⟩
